import Mathlib

/-!
# Verification of the spinners domino server (`src/server.js`, lines 1-375)

Shallow embedding of the game-session core of the server: tile model, deck
construction and deal, starting-player determination, placement validation
with the double/spinner chain rule, open-end tracking, scoring, and round
and game termination.

Embedding conventions:
* A JS tile end value is either an integer `0..9` or the wild marker `'S'`;
  we embed it as `Val`.
* JS arrays are Lean lists.  `Array.prototype.pop` takes the **last** element
  of a JS array; we store the boneyard with the JS *top* (last element) as the
  Lean list *head*, so `pop` is head consumption.  `push` appends at the end
  of hands, boards and open-end lists, embedded as `++ [x]`.
* `Math.random`-driven shuffles are injected as an oracle: a list of
  pre-shuffled decks, one per round, consumed head-first.
* The mutual recursion `initializeRound` / `findStartingPlayer` (a failed
  round redeals and searches again) is given a fuel parameter; the JS
  recursion is bounded because `currentRound` strictly decreases.
* `endGame` (src 327-339) broadcasts a `gameOver` message and mutates no
  game state; we record that the broadcast happened in a model-level
  `gameOver` flag, and embed its winner computation as `endGameWinnerIndex`.
-/

/-- A tile end value: a pip count `0..9` or the wild marker `'S'`. -/
inductive Val where
  | num (n : Nat)
  | wild
deriving DecidableEq, Repr

/-- The `Domino` class (src 8-18).  `connectedEnds` is written but never read
by the server logic and is omitted.  Constructor fields: `x = y = 0`,
`rotation = 0`, `placed = false`, `isSpinner = (a === 'S' && b === 'S')`. -/
structure Domino where
  a : Val
  b : Val
  x : Int
  y : Int
  rotation : Int
  placed : Bool
  isSpinner : Bool
deriving DecidableEq, Repr

/-- Constructor `new Domino(a, b)` (src 9-17). -/
def mkDomino (a b : Val) : Domino :=
  { a := a, b := b, x := 0, y := 0, rotation := 0, placed := false,
    isSpinner := decide (a = Val.wild) && decide (b = Val.wild) }

/-- The left/right view produced by `Domino.getEnds` (src 20-29).  For a
spinner the JS returns the 4-element array `[a, a, a, a]`; that value is only
ever consumed through `.left`/`.right` in non-spinner code paths, so we render
it as both ends reading `a`. -/
structure EndsLR where
  left : Val
  right : Val
deriving DecidableEq, Repr

/-- Method `Domino.getEnds` (src 20-29). -/
def Domino.getEnds (d : Domino) : EndsLR :=
  if d.isSpinner then { left := d.a, right := d.a }
  else if d.rotation = 0 ∨ d.rotation = 180 then { left := d.a, right := d.b }
  else { left := d.b, right := d.a }

/-- Contribution of one end to a tile score: a wild end counts 10, a numeric
end its face value (src 34-37). -/
def valScore : Val → Nat
  | Val.wild => 10
  | Val.num n => n

/-- Method `Domino.getScore` (src 31-39): wild/wild scores 20, otherwise the two per
end contributions are summed. -/
def Domino.getScore (d : Domino) : Nat :=
  if d.a = Val.wild ∧ d.b = Val.wild then 20
  else valScore d.a + valScore d.b

/-- Side tag of an open-end slot (src: the `side` strings
`'left'/'right'/'top'/'bottom'`). -/
inductive Side where
  | left
  | right
  | top
  | bottom
deriving DecidableEq, Repr

/-- An open-end slot as pushed onto `gameState.openEnds`
(src 264-267, 270-271, 280-283, 288-292): owning tile, carried matching
value, side tag, and anchor coordinate.  The carried value can itself be the
wild marker (the propagation quirk verified below). -/
structure OpenEnd where
  domino : Domino
  value : Val
  side : Side
  x : Int
  y : Int
deriving DecidableEq, Repr

/-- The position/rotation triple returned by `canPlaceDomino` /
`getPlacementPosition` (src 221, 258). -/
structure Placement where
  x : Int
  y : Int
  rotation : Int
deriving DecidableEq, Repr

/-- The mutable `gameState` object (src 42-59), restricted to the fields the
game logic reads or writes.  `dominoes` (only a staging buffer for the
shuffle), `selectedDomino` (never read server-side) and `playerNames`
(presentation only) are omitted.  `currentRound` is an `Int` because the JS
decrements it to `-1` before the `endGame` check.  `roundWinner` starts as
`null`; JS coerces `null` to `0` in the draw-order arithmetic, embedded via
`Option.getD 0`.  `gameOver` is a model flag recording that `endGame`
broadcast its terminal message (the JS signals termination by message only). -/
structure GState where
  board : List Domino
  players : List (List Domino)
  boneyard : List Domino
  currentPlayer : Nat
  gameStarted : Bool
  currentRound : Int
  spinner : Option Domino
  openEnds : List OpenEnd
  scores : List Nat
  doubleCounter : Nat
  doubleInPlay : Option Domino
  roundWinner : Option Nat
  gameOver : Bool
deriving DecidableEq, Repr

/-- The 66-tile deck in construction order (src 62-70): all pairs `(i, j)`
with `0 ≤ i ≤ j ≤ 9`, then wild/wild, then wild/`i` for `i` in `0..9`. -/
def fullDeck : List Domino :=
  ((List.range 10).flatMap fun i =>
    (List.range' i (10 - i)).map fun j => mkDomino (Val.num i) (Val.num j))
  ++ [mkDomino Val.wild Val.wild]
  ++ (List.range 10).map fun i => mkDomino Val.wild (Val.num i)

/-- JS `===` comparison of a tile end against the number `currentRound`
(src 113, 130, 220): a wild end is never `===` a number. -/
def valEqInt : Val → Int → Bool
  | Val.num n, r => decide ((n : Int) = r)
  | Val.wild, _ => false

/-- Conversion of the integer round number to a stored tile value, used where
the JS stores `currentRound` as an open-end value (src 264-267).  Whenever the
JS does so the round number is in `0..9`. -/
def roundVal (r : Int) : Val := Val.num r.toNat

/-- The qualifying-tile predicate of the starting-player search and of the
opening-move check (src 113, 130, 220):
`(a === currentRound && b === currentRound) || (a === 'S' && b === 'S')`. -/
def isSetDomino (r : Int) (d : Domino) : Bool :=
  (valEqInt d.a r && valEqInt d.b r) ||
    (decide (d.a = Val.wild) && decide (d.b = Val.wild))

/-- Function `positionDomino` (src 98-107) computes presentation coordinates with
floating-point trigonometry, which has no exact shallow embedding.  Its
outputs are written only to the `x`, `y`, `rotation` fields of hand tiles and
are never read by any rule logic: `rotation` of a candidate tile is
overwritten by `canPlaceDomino` (src 218) before `getEnds` is ever consulted,
and hand coordinates never feed placement geometry.  We embed it as an
integer-valued stand-in of the same arguments. -/
def positionDomino (numPlayers playerIndex dominoIndex : Nat) (d : Domino) :
    Domino :=
  { d with x := (400 : Int) + playerIndex + numPlayers,
           y := (300 : Int) + dominoIndex,
           rotation := (90 : Int) * playerIndex }

/-- Inner loop of `dealDominoes` (src 88-94): draw up to `k` tiles from the
boneyard into one hand; when the boneyard is empty the loop body is skipped
and the hand stops growing.  `j` is the JS loop counter (the tile's index
used by `positionDomino`). -/
def dealHand (n i : Nat) : Nat → Nat → List Domino → List Domino →
    List Domino × List Domino
  | 0, _, hand, boneyard => (hand, boneyard)
  | k + 1, j, hand, [] => dealHand n i k (j + 1) hand []
  | k + 1, j, hand, d :: rest =>
      dealHand n i k (j + 1) (hand ++ [positionDomino n i j d]) rest

/-- Outer loop of `dealDominoes` (src 86-95): reset and refill each player's
hand in index order.  `i` is the next player index, `remaining` the number of
players still to deal. -/
def dealPlayers (n k : Nat) : Nat → Nat → List (List Domino) →
    List Domino → List (List Domino) × List Domino
  | _, 0, players, boneyard => (players, boneyard)
  | i, rem + 1, players, boneyard =>
      let hb := dealHand n i k 0 [] boneyard
      dealPlayers n k (i + 1) rem (players.set i hb.1) hb.2

/-- Function `dealDominoes` (src 84-96): 14 tiles per player for a 2-player game,
otherwise 7. -/
def dealDominoes (st : GState) : GState :=
  let n := st.players.length
  let k := if n = 2 then 14 else 7
  let pb := dealPlayers n k 0 n st.players st.boneyard
  { st with players := pb.1, boneyard := pb.2 }

/-- The hand-scan phase of `findStartingPlayer` (src 110-121): the first
player index, in player order, whose hand holds a qualifying tile. -/
def scanStarter (r : Int) : List (List Domino) → Option Nat
  | [] => none
  | h :: t =>
      if h.any (isSetDomino r) then some 0
      else (scanStarter r t).map (· + 1)

/-- The forced-draw loop of `findStartingPlayer` (src 122-137): starting from
`start = roundWinner` (JS `null` coerces to 0) players draw one tile at a
time in turn order until a drawn tile qualifies or the boneyard empties.
Returns the starter found (if any), the updated hands, and the remaining
boneyard. -/
def drawLoop (r : Int) (n start : Nat) : Nat → List (List Domino) →
    List Domino → Option Nat × List (List Domino) × List Domino
  | _, players, [] => (none, players, [])
  | drawRound, players, d :: rest =>
      let pIdx := (start + drawRound) % n
      let hand := players.getD pIdx []
      let d := positionDomino n pIdx hand.length d
      let players := players.set pIdx (hand ++ [d])
      if isSetDomino r d then (some pIdx, players, rest)
      else drawLoop r n start (drawRound + 1) players rest

/-- The per-round state reset performed by `initializeRound` before redealing
(src 149-176): clear board, hands, open ends and chain state, and install the
freshly shuffled 66-tile deck as the boneyard. -/
def roundReset (st : GState) (sh : List Domino) : GState :=
  { st with board := [], players := List.replicate st.players.length [],
            boneyard := sh, gameStarted := false, spinner := none,
            openEnds := [], doubleCounter := 0, doubleInPlay := none }

/-- Function `endGame` (src 327-339) computes the game winner and broadcasts the
terminal message; it mutates no game field.  The model records the broadcast
in the `gameOver` flag. -/
def endGame (st : GState) : GState := { st with gameOver := true }

/-- Embedding of `Math.min(...scores)` (src 328) over a non-empty score list (over an
empty list the JS yields `Infinity`; `endGame` is never invoked with one). -/
def jsMin : List Nat → Nat
  | [] => 0
  | h :: t => t.foldl Nat.min h

/-- The game-winner slot computed by `endGame` (src 328):
`scores.indexOf(Math.min(...scores))`, i.e. the first index attaining the
minimum. -/
def endGameWinnerIndex (scores : List Nat) : Nat :=
  scores.indexOf (jsMin scores)

mutual

/-- Function `initializeRound` (src 148-181): reset the round state, install the next
shuffled deck, deal, and determine the starting player.  `shuffles` is the
oracle of future shuffled decks; `fuel` bounds the redeal recursion (the JS
recursion terminates because `currentRound` strictly decreases). -/
def initializeRound (shuffles : List (List Domino)) (fuel : Nat)
    (st : GState) : GState :=
  match fuel with
  | 0 => st
  | f + 1 =>
      let st1 := dealDominoes (roundReset st (shuffles.headD fullDeck))
      findStartingPlayer shuffles.tail f st1
termination_by 2 * fuel

/-- Function `findStartingPlayer` (src 109-146): scan hands for a qualifying tile;
failing that, force draws from the boneyard; failing that, decrement the
round target and either redeal a brand-new round or end the game. -/
def findStartingPlayer (shuffles : List (List Domino)) (fuel : Nat)
    (st : GState) : GState :=
  match scanStarter st.currentRound st.players with
  | some i => { st with currentPlayer := i, roundWinner := some i }
  | none =>
      let res := drawLoop st.currentRound st.players.length
        (st.roundWinner.getD 0) 0 st.players st.boneyard
      let st1 := { st with players := res.2.1, boneyard := res.2.2 }
      match res.1 with
      | some p => { st1 with currentPlayer := p }
      | none =>
          let st2 := { st1 with currentRound := st1.currentRound - 1 }
          if st2.currentRound ≥ 0 then initializeRound shuffles fuel st2
          else endGame st2
termination_by 2 * fuel + 1

end

/-- Function `initializeGame` (src 42-82): fresh state at round target 9, shuffled
deck as boneyard, deal, and starting-player determination. -/
def initializeGame (shuffles : List (List Domino)) (fuel : Nat)
    (numPlayers : Nat) : GState :=
  let st : GState :=
    { board := [], players := List.replicate numPlayers [],
      boneyard := shuffles.headD fullDeck, currentPlayer := 0,
      gameStarted := false, currentRound := 9, spinner := none,
      openEnds := [], scores := List.replicate numPlayers 0,
      doubleCounter := 0, doubleInPlay := none, roundWinner := none,
      gameOver := false }
  findStartingPlayer shuffles.tail fuel (dealDominoes st)

/-- Function `getPlacementPosition` (src 248-259): reject unless the caller-supplied
anchor is within 50 units of the open end on each axis; otherwise snap the
new tile next to the end (±50 horizontally for left/right ends, ±30
vertically for top/bottom ends), keeping the caller's rotation.  The JS
`domino` parameter is unused, as in the source. -/
def getPlacementPosition (e : OpenEnd) (_d : Domino) (x y rotation : Int) :
    Option Placement :=
  if (e.x - x).natAbs > 50 ∨ (e.y - y).natAbs > 50 then none
  else
    let newX := match e.side with
      | Side.left => e.x - 50
      | Side.right => e.x + 50
      | _ => e.x
    let newY := match e.side with
      | Side.top => e.y - 30
      | Side.bottom => e.y + 30
      | _ => e.y
    some { x := newX, y := newY, rotation := rotation }

/-- The open-end match test of the normal (chain-free) branch of
`canPlaceDomino` (src 239):
`a === end.value || b === end.value || a === 'S' || b === 'S'`. -/
def canMatchOpen (d : Domino) (v : Val) : Bool :=
  d.a == v || d.b == v || d.a == Val.wild || d.b == Val.wild

/-- The chain-branch match test of `canPlaceDomino` (src 226-229): the
`matchNum` is the double's `a` value, or `currentRound` when the double is
wild/wild; tile ends are compared with JS `===`, and a wild end always
matches. -/
def matchesNum (d dIP : Domino) (r : Int) : Bool :=
  if dIP.a = Val.wild then
    valEqInt d.a r || valEqInt d.b r || d.a == Val.wild || d.b == Val.wild
  else
    d.a == dIP.a || d.b == dIP.a || d.a == Val.wild || d.b == Val.wild

/-- The `for (let end of gameState.openEnds)` search loops of
`canPlaceDomino` (src 227-234, 238-244): the first open end satisfying the
match predicate for which `getPlacementPosition` accepts yields the
placement. -/
def firstPlacement (pred : OpenEnd → Bool) (d : Domino) (x y rotation : Int) :
    List OpenEnd → Option Placement
  | [] => none
  | e :: rest =>
      if pred e then
        match getPlacementPosition e d x y rotation with
        | some p => some p
        | none => firstPlacement pred d x y rotation rest
      else firstPlacement pred d x y rotation rest

/-- Function `canPlaceDomino` (src 217-246).  The side effect
`domino.rotation = rotation` of src 218 is applied by `handlePlay` before
this (pure) validation; the validation itself never reads the field.  Before
the first placement only the round-target double or wild/wild is accepted, at
the fixed centre anchor.  While a chain is active (`doubleInPlay` non-null
and `doubleCounter < 3`) only open ends owned by the chained double are
searched, with the `matchesNum` test, and on failure the function returns
without consulting the other ends; otherwise all open ends are searched with
the `canMatchOpen` test. -/
def canPlaceDomino (d : Domino) (x y rotation : Int) (st : GState) :
    Option Placement :=
  if st.gameStarted = false then
    if isSetDomino st.currentRound d then
      some { x := 400, y := 300, rotation := 0 }
    else none
  else
    match st.doubleInPlay with
    | some dIP =>
        if st.doubleCounter < 3 then
          firstPlacement
            (fun e => e.domino == dIP && matchesNum d dIP st.currentRound)
            d x y rotation st.openEnds
        else
          firstPlacement (fun e => canMatchOpen d e.value) d x y rotation
            st.openEnds
    | none =>
        firstPlacement (fun e => canMatchOpen d e.value) d x y rotation
          st.openEnds

/-- The proximity predicate with which `updateOpenEnds` locates the consumed
open end (src 275): strictly within 50 units of the placement on each axis. -/
def nearPlacement (p : Placement) (e : OpenEnd) : Bool :=
  (e.x - p.x).natAbs < 50 && (e.y - p.y).natAbs < 50

/-- The four slots emitted around a placed spinner/double hub, all carrying
the same value `v` (src 264-267, 280-283). -/
def hubSlots (d : Domino) (v : Val) : List OpenEnd :=
  [ { domino := d, value := v, side := Side.left, x := d.x - 25, y := d.y },
    { domino := d, value := v, side := Side.right, x := d.x + 25, y := d.y },
    { domino := d, value := v, side := Side.top, x := d.x, y := d.y - 15 },
    { domino := d, value := v, side := Side.bottom, x := d.x, y := d.y + 15 } ]

/-- The open-end list produced by `updateOpenEnds` (src 261-296).  Opening
placement: a double emits 4 hub slots carrying the resolved value (the round
target for wild/wild), a plain tile emits left/right slots carrying its
`getEnds` values.  Later placements: the open end strictly within 50 units of
the placement is consumed (when none is, the slot set is left unchanged); a
double emits 4 hub slots carrying the consumed end's value when wild/wild,
else its own value; a plain tile emits two slots along the axis implied by
the rotation, carrying the source's `matchedValue`/`unmatchedValue` pair
computed from the raw `a`/`b` fields (src 285-286). -/
def newOpenEnds (gameStarted : Bool) (currentRound : Int)
    (openEnds : List OpenEnd) (d : Domino) (p : Placement) : List OpenEnd :=
  if gameStarted = false then
    if d.isSpinner then
      let v := if d.a = Val.wild then roundVal currentRound else d.a
      openEnds ++ hubSlots d v
    else
      let ends := d.getEnds
      openEnds ++
        [ { domino := d, value := ends.left, side := Side.left,
            x := d.x - 25, y := d.y },
          { domino := d, value := ends.right, side := Side.right,
            x := d.x + 25, y := d.y } ]
  else
    match openEnds.find? (nearPlacement p) with
    | none => openEnds
    | some matchedEnd =>
        let rest := openEnds.filter (fun e => e ≠ matchedEnd)
        if d.isSpinner then
          let v := if d.a = Val.wild then matchedEnd.value else d.a
          rest ++ hubSlots d v
        else
          let matchedValue :=
            if d.a = matchedEnd.value ∨ d.a = Val.wild then d.b else d.a
          let unmatchedValue :=
            if d.a = matchedEnd.value ∨ d.a = Val.wild then d.a else d.b
          if p.rotation = 0 ∨ p.rotation = 180 then
            rest ++
              [ { domino := d, value := matchedValue, side := Side.left,
                  x := d.x - 25, y := d.y },
                { domino := d, value := unmatchedValue, side := Side.right,
                  x := d.x + 25, y := d.y } ]
          else
            rest ++
              [ { domino := d, value := matchedValue, side := Side.top,
                  x := d.x, y := d.y - 15 },
                { domino := d, value := unmatchedValue, side := Side.bottom,
                  x := d.x, y := d.y + 15 } ]

/-- Function `updateOpenEnds` (src 261-296) writes only `gameState.openEnds`. -/
def updateOpenEnds (d : Domino) (p : Placement) (st : GState) : GState :=
  { st with openEnds :=
      newOpenEnds st.gameStarted st.currentRound st.openEnds d p }

/-- Function `checkGameEnd` (src 311-325), invoked by `handlePlay` after the turn has
been advanced: if the (new) current player's hand is empty, that player is
recorded as the round winner and every player's cumulative score grows by the
score sum of their remaining hand (the `scores[currentPlayer] += 0` of src
317 is a no-op: the trigger hand is empty); then the round target is
decremented and a new round dealt, or the game ends at target 0. -/
def checkGameEnd (shuffles : List (List Domino)) (fuel : Nat) (st : GState) :
    GState :=
  if (st.players.getD st.currentPlayer []).length = 0 then
    let st1 := { st with roundWinner := some st.currentPlayer,
                         scores := List.zipWith
                           (fun s hand => s + (hand.map Domino.getScore).sum)
                           st.scores st.players }
    if st1.currentRound > 0 then
      initializeRound shuffles fuel
        { st1 with currentRound := st1.currentRound - 1 }
    else endGame st1
  else st

/-- The position/orientation finalization of the placed tile
(src 188-191): `placed = true` and the placement's coordinates and
rotation. -/
def finalizeTile (d1 : Domino) (p : Placement) : Domino :=
  { d1 with placed := true, x := p.x, y := p.y, rotation := p.rotation }

/-- A placed double after `handlePlay` additionally marks it a spinner
(src 193). -/
def finalizeDouble (d1 : Domino) (p : Placement) : Domino :=
  { finalizeTile d1 p with isSpinner := true }

/-- The double test of `handlePlay` (src 192):
`a === b || (a === 'S' && b === 'S')` (the second disjunct is subsumed by
the first). -/
def doubleCond (d : Domino) : Bool :=
  d.a == d.b || (d.a == Val.wild && d.b == Val.wild)

/-- The successful-placement body of `handlePlay` before the round-end check
(src 188-211): finalize the tile's position fields, register a placed double
as the chained double with a fresh counter, append to the board, update the
open ends, remove the tile from the hand, bump the chain counter (clearing
the chain when it reaches 3), mark the game started on the first placement,
and advance the turn. -/
def placeAndAdvance (playerId dominoIndex : Nat) (d1 : Domino)
    (p : Placement) (st1 : GState) : GState :=
  let d2base := finalizeTile d1 p
  let d2 := if doubleCond d1 then { d2base with isSpinner := true }
            else d2base
  let st2 := if doubleCond d1 then
      { st1 with doubleInPlay := some d2, doubleCounter := 0 }
    else st1
  let st3 := { st2 with board := st2.board ++ [d2] }
  let st4 := updateOpenEnds d2 p st3
  let removedHand := (st4.players.getD playerId []).eraseIdx dominoIndex
  let st5 := { st4 with players := st4.players.set playerId removedHand }
  let st6 := match st5.doubleInPlay with
    | none => st5
    | some _ =>
        if st5.doubleCounter + 1 ≥ 3 then
          { st5 with doubleInPlay := none, doubleCounter := 0 }
        else { st5 with doubleCounter := st5.doubleCounter + 1 }
  let st7 := if st6.board.length = 1 then
      { st6 with gameStarted := true, spinner := some d2 }
    else st6
  { st7 with currentPlayer := (st7.currentPlayer + 1) % st7.players.length }

/-- The successful-placement tail of `handlePlay` (src 188-212):
`placeAndAdvance` followed by the round-end check. -/
def applyPlacement (shuffles : List (List Domino)) (fuel : Nat)
    (playerId dominoIndex : Nat) (d1 : Domino) (p : Placement)
    (st1 : GState) : GState :=
  checkGameEnd shuffles fuel (placeAndAdvance playerId dominoIndex d1 p st1)

/-- Function `handlePlay` (src 183-215).  Rejected if the submitter is not the current
player or the index does not name a tile of their hand.  Otherwise the
candidate tile's `rotation` field is overwritten with the submitted rotation
(the src 218 side effect, which survives even if validation then fails) and
the placement is validated and, when accepted, applied. -/
def handlePlay (shuffles : List (List Domino)) (fuel : Nat)
    (playerId dominoIndex : Nat) (x y rotation : Int) (st : GState) :
    GState :=
  if playerId ≠ st.currentPlayer then st
  else
    match (st.players.getD playerId []).get? dominoIndex with
    | none => st
    | some d0 =>
        let d1 := { d0 with rotation := rotation }
        let rotatedHand := (st.players.getD playerId []).set dominoIndex d1
        let st1 := { st with players := st.players.set playerId rotatedHand }
        match canPlaceDomino d1 x y rotation st1 with
        | none => st1
        | some p =>
            applyPlacement shuffles fuel playerId dominoIndex d1 p st1

/-- Function `handleDraw` (src 298-309).  An invalid draw (out of turn, or empty
boneyard) still advances the turn; a valid one pops the boneyard into the
caller's hand and advances the turn. -/
def handleDraw (playerId : Nat) (st : GState) : GState :=
  if playerId ≠ st.currentPlayer ∨ st.boneyard = [] then
    { st with currentPlayer := (st.currentPlayer + 1) % st.players.length }
  else
    match st.boneyard with
    | [] => st
    | d :: rest =>
        let hand := st.players.getD playerId []
        let d := positionDomino st.players.length playerId hand.length d
        { st with boneyard := rest,
                  players := st.players.set playerId (hand ++ [d]),
                  currentPlayer :=
                    (st.currentPlayer + 1) % st.players.length }

/-- The state reached inside `findStartingPlayer` when the forced-draw loop
has run and no starter was found (src 122-139): hands and boneyard as left by
the draw loop, and the round target decremented. -/
def postDrawDecrement (st : GState) : GState :=
  { st with
    players := (drawLoop st.currentRound st.players.length
      (st.roundWinner.getD 0) 0 st.players st.boneyard).2.1,
    boneyard := (drawLoop st.currentRound st.players.length
      (st.roundWinner.getD 0) 0 st.players st.boneyard).2.2,
    currentRound := st.currentRound - 1 }

/-- The chain-state invariant of §3 of the specification: `doubleInPlay` is
either null or a double tile (both ends equal, wild/wild included) currently
on the board, and the counter is meaningful only while a double is in play —
the code's representation keeps `doubleCounter = 0` when `doubleInPlay` is
null — and is always in `[0, 3)`. -/
def DoubleInv (st : GState) : Prop :=
  match st.doubleInPlay with
  | none => st.doubleCounter = 0
  | some d => d ∈ st.board ∧ d.a = d.b ∧ st.doubleCounter < 3

/-! ### Concrete states used to exercise the claims -/

/-- A `[5|7]` tile already placed on the board, its right end open. -/
def placedTile57 : Domino :=
  { a := Val.num 5, b := Val.num 7, x := 400, y := 300, rotation := 0,
    placed := true, isSpinner := false }

/-- Mid-round 2-player state: player 0 (to move) holds only `[5|6]`, which
matches the open `5` end; player 1 holds two tiles worth `3` and `7`. -/
def stGoingOut : GState :=
  { board := [placedTile57],
    players := [ [mkDomino (Val.num 5) (Val.num 6)],
                 [mkDomino (Val.num 1) (Val.num 2),
                  mkDomino (Val.num 3) (Val.num 4)] ],
    boneyard := [], currentPlayer := 0, gameStarted := true,
    currentRound := 9, spinner := some placedTile57,
    openEnds := [ { domino := placedTile57, value := Val.num 5,
                    side := Side.right, x := 425, y := 300 } ],
    scores := [0, 0], doubleCounter := 0, doubleInPlay := none,
    roundWinner := none, gameOver := false }

/-- Mid-round 2-player state for the rejection claims: player 0 (to move)
holds `[1|2]`, which matches no open end (the only open end reads `7`); the
boneyard is non-empty. -/
def stRejection : GState :=
  { board := [placedTile57],
    players := [ [mkDomino (Val.num 1) (Val.num 2)],
                 [mkDomino (Val.num 3) (Val.num 4)] ],
    boneyard := [mkDomino (Val.num 0) (Val.num 1)],
    currentPlayer := 0, gameStarted := true,
    currentRound := 9, spinner := some placedTile57,
    openEnds := [ { domino := placedTile57, value := Val.num 7,
                    side := Side.right, x := 425, y := 300 } ],
    scores := [0, 0], doubleCounter := 0, doubleInPlay := none,
    roundWinner := none, gameOver := false }

/-- The wild/wild tile placed on the board as a non-opening move (it mated a
`5` end, so its hub slots carry `5`). -/
def placedWildWild : Domino :=
  { a := Val.wild, b := Val.wild, x := 400, y := 300, rotation := 0,
    placed := true, isSpinner := true }

/-- Chain-active state on the wild/wild double: round target `9`, the
double's four hub slots carry the value `5` it matched when placed, and the
current player holds `[9|3]` (a round-target match, not a slot-value
match). -/
def stWildChain : GState :=
  { board := [placedWildWild],
    players := [ [mkDomino (Val.num 9) (Val.num 3)], [] ],
    boneyard := [], currentPlayer := 0, gameStarted := true,
    currentRound := 9, spinner := some placedWildWild,
    openEnds := hubSlots placedWildWild (Val.num 5),
    scores := [0, 0], doubleCounter := 1, doubleInPlay := some placedWildWild,
    roundWinner := some 0, gameOver := false }

/-- A `[4|4]` double placed on the board as a chain anchor. -/
def placedDouble44 : Domino :=
  { a := Val.num 4, b := Val.num 4, x := 400, y := 300, rotation := 0,
    placed := true, isSpinner := true }

/-- Chain-active state on `[4|4]`: its hub slots carry `4`, player 0 (to
move) holds `[4|6]`. -/
def stChain44 : GState :=
  { board := [placedDouble44],
    players := [ [mkDomino (Val.num 4) (Val.num 6)], [mkDomino (Val.num 1) (Val.num 1)] ],
    boneyard := [], currentPlayer := 0, gameStarted := true,
    currentRound := 9, spinner := some placedDouble44,
    openEnds := hubSlots placedDouble44 (Val.num 4),
    scores := [0, 0], doubleCounter := 2, doubleInPlay := some placedDouble44,
    roundWinner := some 0, gameOver := false }

/-- Pre-deal 4-player state: empty hands, full shuffled deck as boneyard. -/
def stPreDeal4 : GState :=
  { board := [], players := List.replicate 4 [],
    boneyard := fullDeck, currentPlayer := 0, gameStarted := false,
    currentRound := 9, spinner := none, openEnds := [],
    scores := List.replicate 4 0, doubleCounter := 0, doubleInPlay := none,
    roundWinner := none, gameOver := false }

/-- Freshly dealt 2-player state in which only player 1 holds the
round-target double `[9|9]`. -/
def stOnlyP1HasNine : GState :=
  { board := [],
    players := [ [mkDomino (Val.num 1) (Val.num 2)],
                 [mkDomino (Val.num 9) (Val.num 9),
                  mkDomino (Val.num 0) (Val.num 3)] ],
    boneyard := [mkDomino (Val.num 2) (Val.num 5)],
    currentPlayer := 0, gameStarted := false, currentRound := 9,
    spinner := none, openEnds := [], scores := [0, 0], doubleCounter := 0,
    doubleInPlay := none, roundWinner := none, gameOver := false }

/-- Freshly dealt 2-player state at round target `0` in which neither the
hands nor the boneyard contain `[0|0]` or wild/wild: the starting-player
search must come up empty and the game must end. -/
def stNoQualifier : GState :=
  { board := [],
    players := [ [mkDomino (Val.num 1) (Val.num 2)],
                 [mkDomino (Val.num 3) (Val.num 4)] ],
    boneyard := [mkDomino (Val.num 1) (Val.num 3)],
    currentPlayer := 0, gameStarted := false, currentRound := 0,
    spinner := none, openEnds := [], scores := [5, 7], doubleCounter := 0,
    doubleInPlay := none, roundWinner := some 1, gameOver := false }

/-- The single open end of `stHalfWild`: value `3`, top side, `(400, 285)`. -/
def topEnd3 : OpenEnd :=
  { domino := placedTile57, value := Val.num 3, side := Side.top, x := 400,
    y := 285 }

/-- The placement consuming `topEnd3`: `(400, 255)`, rotation 0. -/
def pHalfWild : Placement := { x := 400, y := 255, rotation := 0 }

/-- Mid-round state for the half-wild propagation claim: one open end
reading `3` on the top side at `(400, 285)`; the placed tile will be
`[S|3]`. -/
def stHalfWild : GState :=
  { board := [placedTile57],
    players := [ [], [] ],
    boneyard := [], currentPlayer := 1, gameStarted := true,
    currentRound := 9, spinner := some placedTile57,
    openEnds := [topEnd3],
    scores := [0, 0], doubleCounter := 0, doubleInPlay := none,
    roundWinner := some 0, gameOver := false }

/-- The half-wild tile `[S|3]` as placed at `(400, 255)` (consuming the top
open end of `stHalfWild`, which lies strictly within the 50-unit find
tolerance). -/
def placedHalfWild : Domino :=
  { a := Val.wild, b := Val.num 3, x := 400, y := 255, rotation := 0,
    placed := true, isSpinner := false }

/-! ## Basic lemmas about the embedded operations -/

theorem doubleCond_true_iff (d : Domino) : doubleCond d = true ↔ d.a = d.b := by
  unfold doubleCond
  simp only [Bool.or_eq_true, Bool.and_eq_true, beq_iff_eq]
  constructor
  · rintro (h | ⟨h1, h2⟩)
    · exact h
    · rw [h1, h2]
  · intro h
    exact Or.inl h

theorem canPlaceDomino_set_players (d : Domino) (x y rot : Int) (st : GState)
    (ps : List (List Domino)) :
    canPlaceDomino d x y rot { st with players := ps } =
      canPlaceDomino d x y rot st := rfl

theorem checkGameEnd_skip (shuffles : List (List Domino)) (fuel : Nat)
    (st : GState) (h : (st.players.getD st.currentPlayer []).length ≠ 0) :
    checkGameEnd shuffles fuel st = st := by
  unfold checkGameEnd
  rw [if_neg h]

theorem firstPlacement_some {pred : OpenEnd → Bool} {d : Domino}
    {x y rot : Int} {l : List OpenEnd} {p : Placement}
    (h : firstPlacement pred d x y rot l = some p) :
    ∃ e ∈ l, pred e = true ∧ getPlacementPosition e d x y rot = some p := by
  induction l with
  | nil => simp [firstPlacement] at h
  | cons a rest ih =>
    unfold firstPlacement at h
    by_cases hp : pred a
    · rw [if_pos hp] at h
      cases hg : getPlacementPosition a d x y rot with
      | some q =>
        rw [hg] at h
        exact ⟨a, List.mem_cons_self a rest, hp, by rw [hg]; exact h⟩
      | none =>
        rw [hg] at h
        obtain ⟨e, he, hpe, hge⟩ := ih h
        exact ⟨e, List.mem_cons_of_mem a he, hpe, hge⟩
    · rw [if_neg hp] at h
      obtain ⟨e, he, hpe, hge⟩ := ih h
      exact ⟨e, List.mem_cons_of_mem a he, hpe, hge⟩

theorem firstPlacement_isSome {pred : OpenEnd → Bool} {d : Domino}
    {x y rot : Int} {l : List OpenEnd}
    (h : ∃ e ∈ l, pred e = true ∧ getPlacementPosition e d x y rot ≠ none) :
    firstPlacement pred d x y rot l ≠ none := by
  induction l with
  | nil =>
    obtain ⟨e, he, _⟩ := h
    simp at he
  | cons a rest ih =>
    obtain ⟨e, he, hpe, hge⟩ := h
    unfold firstPlacement
    rcases List.mem_cons.mp he with rfl | he'
    · rw [if_pos hpe]
      cases hgp : getPlacementPosition e d x y rot with
      | some q => simp
      | none => exact absurd hgp hge
    · by_cases hpa : pred a
      · rw [if_pos hpa]
        cases hgp : getPlacementPosition a d x y rot with
        | some q => simp
        | none => exact ih ⟨e, he', hpe, hge⟩
      · rw [if_neg hpa]
        exact ih ⟨e, he', hpe, hge⟩

/-! ## C1 -/

/-- C1: the claim fails on the code as written.  In `stGoingOut` player 0
(the current player) legally plays their last tile: the play succeeds (the
board grows to 2 tiles and the hand empties), yet no round end is detected —
scores, `roundWinner`, the round target and the `gameOver` flag are all
untouched, because `handlePlay` advances `currentPlayer` (src 211) before
`checkGameEnd` inspects `players[currentPlayer]` (src 311-312), so it checks
the *next* player's hand instead of the acting player's. -/
theorem going_out_play_not_scored :
    ((handlePlay [] 9 0 0 425 300 0 stGoingOut).players.getD 0 []) = [] ∧
    (handlePlay [] 9 0 0 425 300 0 stGoingOut).board.length = 2 ∧
    (handlePlay [] 9 0 0 425 300 0 stGoingOut).scores = stGoingOut.scores ∧
    (handlePlay [] 9 0 0 425 300 0 stGoingOut).roundWinner =
      stGoingOut.roundWinner ∧
    (handlePlay [] 9 0 0 425 300 0 stGoingOut).currentRound =
      stGoingOut.currentRound ∧
    (handlePlay [] 9 0 0 425 300 0 stGoingOut).gameOver = false := by
  decide

/-! ## C10 -/

/-- C10: while the chain is active on the wild/wild double placed as a
non-opening move, `canPlaceDomino` validates candidates against the round
target (`matchNum = currentRound`, src 226), not against the value carried by
the double's hub slots: in `stWildChain` the slots all carry `5`, yet the
tile `[9|3]` — which matches the round target `9` but neither `5` nor any
wild — is accepted against the chained double. -/
theorem wild_double_chain_validates_round_target :
    canPlaceDomino (mkDomino (Val.num 9) (Val.num 3)) 425 300 0 stWildChain =
      some { x := 325, y := 300, rotation := 0 } ∧
    stWildChain.doubleInPlay = some placedWildWild ∧
    stWildChain.doubleCounter < 3 ∧
    stWildChain.currentRound = 9 ∧
    stWildChain.openEnds.map OpenEnd.value =
      [Val.num 5, Val.num 5, Val.num 5, Val.num 5] ∧
    canMatchOpen (mkDomino (Val.num 9) (Val.num 3)) (Val.num 5) = false ∧
    matchesNum (mkDomino (Val.num 9) (Val.num 3)) placedWildWild 9 = true := by
  decide

/-! ## C3 -/

/-- C3 counterexample: the claim as stated is false.  In `stRejection` a
`Draw` submitted out of turn (player 1, while player 0 is to move) advances
`currentPlayer` (src 299-302), and a `Play` rejected for lack of a matching
open end leaves the board unchanged but overwrites the candidate tile's
`rotation` field (the src 218 side effect), mutating the hand. -/
theorem invalid_actions_mutate_state :
    (handleDraw 1 stRejection).currentPlayer ≠ stRejection.currentPlayer ∧
    (handleDraw 1 stRejection).boneyard = stRejection.boneyard ∧
    (handlePlay [] 9 0 0 425 300 90 stRejection).board = stRejection.board ∧
    (handlePlay [] 9 0 0 425 300 90 stRejection).players ≠
      stRejection.players := by
  decide

/-- C3 amended: a `Play` rejected because the submitter is not the current
player or because the index names no tile of their hand is a strict no-op; a
`Play` rejected because no matching open end within tolerance exists changes
nothing except the candidate tile's `rotation` field, which is overwritten
with the submitted rotation (board, boneyard, open ends, `currentPlayer`,
scores and every other tile are untouched); an invalid `Draw` (out of turn or
empty boneyard) leaves board, hands, boneyard, open ends and scores unchanged
but advances `currentPlayer`. -/
theorem rejected_actions_effect :
    (∀ (shuffles : List (List Domino)) (fuel pid idx : Nat) (x y rot : Int)
        (st : GState),
       pid ≠ st.currentPlayer ∨ (st.players.getD pid []).get? idx = none →
       handlePlay shuffles fuel pid idx x y rot st = st) ∧
    (∀ (shuffles : List (List Domino)) (fuel pid idx : Nat) (x y rot : Int)
        (st : GState) (d0 : Domino),
       pid = st.currentPlayer →
       (st.players.getD pid []).get? idx = some d0 →
       canPlaceDomino { d0 with rotation := rot } x y rot st = none →
       handlePlay shuffles fuel pid idx x y rot st =
         { st with players := st.players.set pid ((st.players.getD pid []).set idx { d0 with rotation := rot }) }) ∧
    (∀ (pid : Nat) (st : GState),
       pid ≠ st.currentPlayer ∨ st.boneyard = [] →
       handleDraw pid st =
         { st with currentPlayer :=
             (st.currentPlayer + 1) % st.players.length }) := by
  refine ⟨?_, ?_, ?_⟩
  · intro shuffles fuel pid idx x y rot st h
    unfold handlePlay
    rcases h with h | h
    · rw [if_pos h]
    · by_cases hpc : pid ≠ st.currentPlayer
      · rw [if_pos hpc]
      · rw [if_neg hpc, h]
  · intro shuffles fuel pid idx x y rot st d0 h1 h2 h3
    unfold handlePlay
    rw [if_neg (not_not_intro h1), h2]
    simp only []
    rw [canPlaceDomino_set_players, h3]
  · intro pid st h
    unfold handleDraw
    rw [if_pos h]

/-- Witness for the amended C3 at a concrete input: the out-of-turn draw in
`stRejection` produces exactly the turn-advanced state. -/
theorem rejected_actions_effect_witness :
    handleDraw 1 stRejection =
      { stRejection with currentPlayer :=
          (stRejection.currentPlayer + 1) % stRejection.players.length } :=
  rejected_actions_effect.2.2 1 stRejection (Or.inl (by decide))

theorem getD_set_ne {α : Type} (l : List α) (i j : Nat) (a dflt : α)
    (h : i ≠ j) : (l.set i a).getD j dflt = l.getD j dflt := by
  simp only [List.getD_eq_getElem?_getD, List.getElem?_set_ne h]

theorem succ_mod_ne_self {p n : Nat} (hn : 2 ≤ n) : (p + 1) % n ≠ p := by
  intro h
  rcases Nat.lt_or_ge (p + 1) n with h1 | h1
  · rw [Nat.mod_eq_of_lt h1] at h
    omega
  · have hpn : p < n := by
      rw [← h]
      exact Nat.mod_lt _ (by omega)
    have he : n = p + 1 := by omega
    subst he
    rw [Nat.mod_self] at h
    omega

/-- Shape of `placeAndAdvance` when the placed tile is not a double and a
chain with two counted placements is active: the third count clears the
chain, the tile leaves the hand, and the turn advances. -/
theorem placeAndAdvance_third_chain_play (pid idx : Nat) (d1 : Domino)
    (p : Placement) (st1 : GState) (D : Domino)
    (hnd : doubleCond d1 = false) (hD : st1.doubleInPlay = some D)
    (hc : st1.doubleCounter = 2) :
    (placeAndAdvance pid idx d1 p st1).doubleInPlay = none ∧
    (placeAndAdvance pid idx d1 p st1).doubleCounter = 0 ∧
    (placeAndAdvance pid idx d1 p st1).players =
      st1.players.set pid ((st1.players.getD pid []).eraseIdx idx) ∧
    (placeAndAdvance pid idx d1 p st1).currentPlayer =
      (st1.currentPlayer + 1) % st1.players.length := by
  unfold placeAndAdvance
  simp only [hnd, Bool.false_eq_true, if_false, updateOpenEnds, hD, hc]
  have h3 : 2 + 1 ≥ 3 := by omega
  rw [if_pos h3]
  split <;> simp

theorem handlePlay_out_of_turn (shuffles : List (List Domino))
    (fuel pid idx : Nat) (x y rot : Int) (st : GState)
    (h : pid ≠ st.currentPlayer) :
    handlePlay shuffles fuel pid idx x y rot st = st := by
  unfold handlePlay
  rw [if_pos h]

theorem handlePlay_bad_index (shuffles : List (List Domino))
    (fuel pid idx : Nat) (x y rot : Int) (st : GState)
    (h1 : pid = st.currentPlayer)
    (h2 : (st.players.getD pid []).get? idx = none) :
    handlePlay shuffles fuel pid idx x y rot st = st := by
  unfold handlePlay
  rw [if_neg (not_not_intro h1), h2]

theorem handlePlay_no_placement (shuffles : List (List Domino))
    (fuel pid idx : Nat) (x y rot : Int) (st : GState) (d0 : Domino)
    (h1 : pid = st.currentPlayer)
    (h2 : (st.players.getD pid []).get? idx = some d0)
    (h3 : canPlaceDomino { d0 with rotation := rot } x y rot st = none) :
    handlePlay shuffles fuel pid idx x y rot st =
      { st with players := st.players.set pid ((st.players.getD pid []).set idx { d0 with rotation := rot }) } := by
  unfold handlePlay
  rw [if_neg (not_not_intro h1), h2]
  simp only []
  rw [canPlaceDomino_set_players, h3]

theorem handlePlay_success (shuffles : List (List Domino))
    (fuel pid idx : Nat) (x y rot : Int) (st : GState) (d0 : Domino)
    (p : Placement) (h1 : pid = st.currentPlayer)
    (h2 : (st.players.getD pid []).get? idx = some d0)
    (h3 : canPlaceDomino { d0 with rotation := rot } x y rot st = some p) :
    handlePlay shuffles fuel pid idx x y rot st =
      applyPlacement shuffles fuel pid idx { d0 with rotation := rot } p
        { st with players := st.players.set pid ((st.players.getD pid []).set idx { d0 with rotation := rot }) } := by
  unfold handlePlay
  rw [if_neg (not_not_intro h1), h2]
  simp only []
  rw [canPlaceDomino_set_players, h3]

/-! ## C2 -/

/-- C2: while a chain is active (`doubleInPlay` non-null and
`doubleCounter < 3`), a play is accepted only via an open end owned by the
chained double, with a tile passing the double's match test (value equality
against the double's match number — its pip value, or the round target for
the wild/wild double — or a wild end); a successful third counted placement
(the double's own placement being the first) clears the chain; and once no
chain is active, a tile matching any open end anywhere on the board within
tolerance is accepted. -/
theorem chain_restricts_then_lifts :
    (∀ (st : GState) (D d : Domino) (x y rot : Int) (p : Placement),
       st.gameStarted = true → st.doubleInPlay = some D →
       st.doubleCounter < 3 →
       canPlaceDomino d x y rot st = some p →
       matchesNum d D st.currentRound = true ∧
       ∃ e ∈ st.openEnds, e.domino = D ∧
         getPlacementPosition e d x y rot = some p) ∧
    (∀ (st : GState) (D : Domino) (shuffles : List (List Domino))
        (fuel pid idx : Nat) (x y rot : Int),
       st.doubleInPlay = some D → st.doubleCounter = 2 →
       2 ≤ st.players.length →
       st.players.getD ((st.currentPlayer + 1) % st.players.length) [] ≠ [] →
       (∀ t, (st.players.getD pid []).get? idx = some t → t.a ≠ t.b) →
       (handlePlay shuffles fuel pid idx x y rot st).board.length =
         st.board.length + 1 →
       (handlePlay shuffles fuel pid idx x y rot st).doubleInPlay = none ∧
       (handlePlay shuffles fuel pid idx x y rot st).doubleCounter = 0) ∧
    (∀ (st : GState) (d : Domino) (x y rot : Int),
       st.gameStarted = true → st.doubleInPlay = none →
       (∃ e ∈ st.openEnds, canMatchOpen d e.value = true ∧
          getPlacementPosition e d x y rot ≠ none) →
       canPlaceDomino d x y rot st ≠ none) := by
  refine ⟨?_, ?_, ?_⟩
  · intro st D d x y rot p hg hD hc hcan
    unfold canPlaceDomino at hcan
    rw [hg] at hcan
    simp only [Bool.true_eq_false, if_false] at hcan
    rw [hD] at hcan
    simp only [if_pos hc] at hcan
    obtain ⟨e, he, hpe, hge⟩ := firstPlacement_some hcan
    rw [Bool.and_eq_true] at hpe
    exact ⟨hpe.2, e, he, beq_iff_eq.mp hpe.1, hge⟩
  · intro st D shuffles fuel pid idx x y rot hD hc hn hnext hnd hlen
    by_cases h1 : pid = st.currentPlayer
    · cases h2 : (st.players.getD pid []).get? idx with
      | none =>
        rw [handlePlay_bad_index shuffles fuel pid idx x y rot st h1 h2]
          at hlen
        omega
      | some d0 =>
        cases h3 : canPlaceDomino { d0 with rotation := rot } x y rot st with
        | none =>
          rw [handlePlay_no_placement shuffles fuel pid idx x y rot st d0
            h1 h2 h3] at hlen
          simp only [] at hlen
          omega
        | some p =>
          rw [handlePlay_success shuffles fuel pid idx x y rot st d0 p
            h1 h2 h3] at hlen ⊢
          have hnd1 : doubleCond { d0 with rotation := rot } = false := by
            cases hdc : doubleCond { d0 with rotation := rot }
            · rfl
            · exact absurd ((doubleCond_true_iff _).mp hdc) (hnd d0 h2)
          obtain ⟨e1, e2, e3, e4⟩ := placeAndAdvance_third_chain_play pid idx
            { d0 with rotation := rot } p
            { st with players := st.players.set pid ((st.players.getD pid []).set idx { d0 with rotation := rot }) }
            D hnd1 hD hc
          have hnb : pid ≠ (st.currentPlayer + 1) % st.players.length := by
            rw [h1]
            exact (succ_mod_ne_self hn).symm
          have hskip := checkGameEnd_skip shuffles fuel
            (placeAndAdvance pid idx { d0 with rotation := rot } p
              { st with players := st.players.set pid ((st.players.getD pid []).set idx { d0 with rotation := rot }) })
            (by
              rw [e3, e4]
              simp only [List.length_set]
              rw [getD_set_ne _ _ _ _ _ hnb, getD_set_ne _ _ _ _ _ hnb]
              intro hzero
              exact hnext (List.length_eq_zero.mp hzero))
          unfold applyPlacement at hlen ⊢
          rw [hskip]
          exact ⟨e1, e2⟩
    · rw [handlePlay_out_of_turn shuffles fuel pid idx x y rot st h1] at hlen
      omega
  · intro st d x y rot hg hnone hex
    unfold canPlaceDomino
    rw [hg]
    simp only [Bool.true_eq_false, if_false]
    rw [hnone]
    exact firstPlacement_isSome hex

/-- Witness for C2 at a concrete input: in `stChain44` (chain on `[4|4]`
with two placements counted) playing the non-double `[4|6]` against the
double succeeds and clears the chain. -/
theorem chain_restricts_then_lifts_witness :
    (handlePlay [] 9 0 0 425 300 0 stChain44).doubleInPlay = none ∧
    (handlePlay [] 9 0 0 425 300 0 stChain44).doubleCounter = 0 := by
  exact chain_restricts_then_lifts.2.1 stChain44 placedDouble44 [] 9 0 0
    425 300 0 rfl rfl (by decide) (by decide)
    (by
      intro t ht
      rw [show (stChain44.players.getD 0 []).get? 0 =
        some (mkDomino (Val.num 4) (Val.num 6)) from rfl] at ht
      injection ht with h
      subst h
      decide)
    (by decide)

/-! ## C4 -/

theorem foldl_min_le_init : ∀ (t : List Nat) (a : Nat),
    t.foldl Nat.min a ≤ a := by
  intro t
  induction t with
  | nil => simp
  | cons b t ih =>
    intro a
    calc (b :: t).foldl Nat.min a = t.foldl Nat.min (Nat.min a b) := rfl
      _ ≤ Nat.min a b := ih _
      _ ≤ a := Nat.min_le_left a b

theorem foldl_min_le_mem : ∀ (t : List Nat) (a x : Nat), x ∈ t →
    t.foldl Nat.min a ≤ x := by
  intro t
  induction t with
  | nil =>
    intro a x hx
    simp at hx
  | cons b t ih =>
    intro a x hx
    rcases List.mem_cons.mp hx with rfl | hx'
    · calc (x :: t).foldl Nat.min a = t.foldl Nat.min (Nat.min a x) := rfl
        _ ≤ Nat.min a x := foldl_min_le_init t _
        _ ≤ x := Nat.min_le_right a x
    · exact ih (Nat.min a b) x hx'

theorem foldl_min_mem : ∀ (t : List Nat) (a : Nat),
    t.foldl Nat.min a = a ∨ t.foldl Nat.min a ∈ t := by
  intro t
  induction t with
  | nil =>
    intro a
    exact Or.inl rfl
  | cons b t ih =>
    intro a
    rcases ih (Nat.min a b) with h | h
    · rcases Nat.le_total a b with hab | hab
      · left
        rw [show (b :: t).foldl Nat.min a = t.foldl Nat.min (Nat.min a b)
          from rfl, h]
        simp only [Nat.min_eq_min]
        omega
      · right
        rw [show (b :: t).foldl Nat.min a = t.foldl Nat.min (Nat.min a b)
          from rfl, h]
        have hm : Nat.min a b = b := by
          simp only [Nat.min_eq_min]
          omega
        rw [hm]
        exact List.mem_cons_self b t
    · right
      exact List.mem_cons_of_mem b h

theorem jsMin_le (l : List Nat) (x : Nat) (hx : x ∈ l) : jsMin l ≤ x := by
  cases l with
  | nil => simp at hx
  | cons h t =>
    rcases List.mem_cons.mp hx with rfl | hx'
    · exact foldl_min_le_init t x
    · exact foldl_min_le_mem t h x hx'

theorem jsMin_mem (l : List Nat) (h : l ≠ []) : jsMin l ∈ l := by
  cases l with
  | nil => exact absurd rfl h
  | cons a t =>
    rcases foldl_min_mem t a with h' | h'
    · rw [show jsMin (a :: t) = t.foldl Nat.min a from rfl, h']
      exact List.mem_cons_self a t
    · exact List.mem_cons_of_mem a h'

theorem getD_ne_of_lt_indexOf {α : Type} [DecidableEq α] :
    ∀ (l : List α) (a dflt : α) (j : Nat), j < l.indexOf a →
    l.getD j dflt ≠ a := by
  intro l
  induction l with
  | nil =>
    intro a dflt j hj
    simp [List.indexOf] at hj
  | cons b t ih =>
    intro a dflt j hj
    by_cases hba : b = a
    · rw [List.indexOf_cons_eq t hba] at hj
      omega
    · rw [List.indexOf_cons_ne t hba] at hj
      cases j with
      | zero => simpa using hba
      | succ j => exact ih a dflt j (Nat.lt_of_succ_lt_succ hj)

/-- C4: `endGame` declares as game winner the slot
`scores.indexOf(Math.min(...scores))` (src 328): a player attaining the
lowest cumulative score, and among equal lowest scores the one with the
lowest player index (every strictly earlier index has a strictly larger
score). -/
theorem game_winner_lowest_score_lowest_index (scores : List Nat)
    (h : scores ≠ []) :
    endGameWinnerIndex scores < scores.length ∧
    (∀ j, j < scores.length →
       scores.getD (endGameWinnerIndex scores) 0 ≤ scores.getD j 0) ∧
    (∀ j, j < endGameWinnerIndex scores →
       scores.getD (endGameWinnerIndex scores) 0 < scores.getD j 0) := by
  have hmem : jsMin scores ∈ scores := jsMin_mem scores h
  have hlt : scores.indexOf (jsMin scores) < scores.length :=
    List.indexOf_lt_length.mpr hmem
  have hval : scores.getD (endGameWinnerIndex scores) 0 = jsMin scores := by
    unfold endGameWinnerIndex
    rw [List.getD_eq_getElem _ _ hlt]
    exact List.getElem_indexOf hlt
  refine ⟨hlt, ?_, ?_⟩
  · intro j hj
    rw [hval]
    apply jsMin_le
    rw [List.getD_eq_getElem _ _ hj]
    exact List.getElem_mem _
  · intro j hj
    have hjlen : j < scores.length := Nat.lt_of_lt_of_le
      (Nat.lt_of_lt_of_le hj List.indexOf_le_length) (Nat.le_refl _)
    have hne : scores.getD j 0 ≠ jsMin scores :=
      getD_ne_of_lt_indexOf scores (jsMin scores) 0 j hj
    have hle : jsMin scores ≤ scores.getD j 0 := by
      apply jsMin_le
      rw [List.getD_eq_getElem _ _ hjlen]
      exact List.getElem_mem _
    rw [hval]
    omega

/-- Witness for C4 at a concrete input: with scores `[3, 1, 1]` the winner
slot is in range, attains the minimum, and beats every earlier slot
strictly. -/
theorem game_winner_lowest_score_lowest_index_witness :
    endGameWinnerIndex [3, 1, 1] < 3 ∧
    (∀ j, j < ([3, 1, 1] : List Nat).length →
       ([3, 1, 1] : List Nat).getD (endGameWinnerIndex [3, 1, 1]) 0 ≤
         ([3, 1, 1] : List Nat).getD j 0) ∧
    (∀ j, j < endGameWinnerIndex [3, 1, 1] →
       ([3, 1, 1] : List Nat).getD (endGameWinnerIndex [3, 1, 1]) 0 <
         ([3, 1, 1] : List Nat).getD j 0) :=
  game_winner_lowest_score_lowest_index [3, 1, 1] (by decide)

/-! ## C5 -/

theorem getD_set_self {α : Type} (l : List α) (i : Nat) (a dflt : α)
    (h : i < l.length) : (l.set i a).getD i dflt = a := by
  rw [List.getD_eq_getElem _ _ (by simpa using h)]
  exact List.getElem_set_self _

theorem dealHand_length (n i : Nat) : ∀ (k j : Nat)
    (hand bone : List Domino), k ≤ bone.length →
    (dealHand n i k j hand bone).1.length = hand.length + k ∧
    (dealHand n i k j hand bone).2.length = bone.length - k := by
  intro k
  induction k with
  | zero =>
    intro j hand bone hk
    simp [dealHand]
  | succ k ih =>
    intro j hand bone hk
    cases bone with
    | nil => simp at hk
    | cons d rest =>
      rw [show dealHand n i (k + 1) j hand (d :: rest) =
        dealHand n i k (j + 1) (hand ++ [positionDomino n i j d]) rest
        from rfl]
      have hrest : k ≤ rest.length := by
        simp at hk
        omega
      obtain ⟨ha, hb⟩ := ih (j + 1) (hand ++ [positionDomino n i j d]) rest
        hrest
      constructor
      · rw [ha]
        simp
        omega
      · rw [hb]
        simp

theorem dealPlayers_spec (n k : Nat) : ∀ (rem i : Nat)
    (players : List (List Domino)) (bone : List Domino),
    i + rem ≤ players.length →
    rem * k ≤ bone.length →
    (∀ j, i ≤ j → j < i + rem → players.getD j [] = []) →
    (dealPlayers n k i rem players bone).1.length = players.length ∧
    (∀ j, i ≤ j → j < i + rem →
      ((dealPlayers n k i rem players bone).1.getD j []).length = k) ∧
    (∀ j, j < i ∨ i + rem ≤ j →
      (dealPlayers n k i rem players bone).1.getD j [] =
        players.getD j []) ∧
    (dealPlayers n k i rem players bone).2.length =
      bone.length - rem * k := by
  intro rem
  induction rem with
  | zero =>
    intro i players bone h1 h2 h3
    refine ⟨rfl, ?_, ?_, ?_⟩
    · intro j hj1 hj2
      omega
    · intro j hj
      rfl
    · simp [dealPlayers]
  | succ rem ih =>
    intro i players bone h1 h2 h3
    rw [show dealPlayers n k i (rem + 1) players bone =
      dealPlayers n k (i + 1) rem
        (players.set i (dealHand n i k 0 [] bone).1)
        (dealHand n i k 0 [] bone).2 from rfl]
    have hmul : (rem + 1) * k = rem * k + k := by ring
    have hkb : k ≤ bone.length := by omega
    obtain ⟨hh1, hh2⟩ := dealHand_length n i k 0 [] bone hkb
    have hilt : i < players.length := by omega
    have hih := ih (i + 1) (players.set i (dealHand n i k 0 [] bone).1)
      (dealHand n i k 0 [] bone).2
      (by rw [List.length_set]; omega)
      (by rw [hh2]; omega)
      (by
        intro j hj1 hj2
        rw [getD_set_ne _ _ _ _ _ (by omega)]
        exact h3 j (by omega) (by omega))
    obtain ⟨g1, g2, g3, g4⟩ := hih
    refine ⟨?_, ?_, ?_, ?_⟩
    · rw [g1, List.length_set]
    · intro j hj1 hj2
      rcases Nat.eq_or_lt_of_le hj1 with heq | hj
      · subst heq
        rw [g3 i (Or.inl (by omega)), getD_set_self _ _ _ _ hilt, hh1]
        simp
      · exact g2 j (by omega) (by omega)
    · intro j hj
      have : (dealPlayers n k (i + 1) rem
          (players.set i (dealHand n i k 0 [] bone).1)
          (dealHand n i k 0 [] bone).2).1.getD j [] =
          (players.set i (dealHand n i k 0 [] bone).1).getD j [] := by
        apply g3
        omega
      rw [this, getD_set_ne _ _ _ _ _ (by omega)]
    · rw [g4, hh2]
      omega

theorem sum_map_length (k : Nat) : ∀ (ps : List (List Domino)),
    (∀ j, j < ps.length → (ps.getD j []).length = k) →
    (ps.map List.length).sum = ps.length * k := by
  intro ps
  induction ps with
  | nil =>
    intro h
    simp
  | cons hd tl ih =>
    intro h
    have h0 : hd.length = k := h 0 (by simp)
    have ht : ∀ j, j < tl.length → (tl.getD j []).length = k := by
      intro j hj
      have := h (j + 1) (by simpa using Nat.succ_lt_succ hj)
      rwa [List.getD_cons_succ] at this
    rw [List.map_cons, List.sum_cons, h0, ih ht]
    simp [List.length_cons]
    ring

/-- C5: for every valid player count (2 to 9), dealing from a full 66-tile
boneyard gives every player exactly 14 tiles when there are 2 players and
exactly 7 otherwise, and the boneyard size plus the sum of all hand sizes is
66 after the deal. -/
theorem deal_sizes_and_tile_conservation (n : Nat) (st : GState)
    (h2 : 2 ≤ n) (h9 : n ≤ 9)
    (hp : st.players = List.replicate n [])
    (hlen : st.boneyard.length = 66) :
    (∀ i, i < n → ((dealDominoes st).players.getD i []).length =
      if n = 2 then 14 else 7) ∧
    (dealDominoes st).boneyard.length +
      ((dealDominoes st).players.map List.length).sum = 66 := by
  have hpl : st.players.length = n := by
    rw [hp]
    simp
  have hkb : st.players.length * (if st.players.length = 2 then 14 else 7) ≤
      st.boneyard.length := by
    rw [hlen, hpl]
    by_cases hn2 : n = 2
    · rw [if_pos hn2, hn2]
      omega
    · rw [if_neg hn2]
      omega
  obtain ⟨g1, g2, g3, g4⟩ := dealPlayers_spec st.players.length
    (if st.players.length = 2 then 14 else 7) st.players.length 0
    st.players st.boneyard (by omega) (by simpa using hkb)
    (by
      intro j hj1 hj2
      rw [hp]
      rw [List.getD_eq_getElem?_getD]
      simp)
  have hproj : dealDominoes st =
      { st with
        players := (dealPlayers st.players.length
          (if st.players.length = 2 then 14 else 7) 0 st.players.length
          st.players st.boneyard).1,
        boneyard := (dealPlayers st.players.length
          (if st.players.length = 2 then 14 else 7) 0 st.players.length
          st.players st.boneyard).2 } := rfl
  constructor
  · intro i hi
    rw [hproj]
    have := g2 i (by omega) (by omega)
    rw [this, hpl]
  · rw [hproj]
    simp only []
    rw [sum_map_length _ _ (by
      intro j hj
      rw [g1, hpl] at hj
      exact g2 j (by omega) (by omega)), g1, g4, hlen, hpl]
    refine Nat.sub_add_cancel ?_
    rw [hpl, hlen] at hkb
    exact hkb

/-- Witness for C5 at a concrete input: a 4-player deal from the full deck
gives four 7-tile hands and conserves the 66 tiles. -/
theorem deal_sizes_and_tile_conservation_witness :
    (∀ i, i < 4 → ((dealDominoes stPreDeal4).players.getD i []).length =
      if 4 = 2 then 14 else 7) ∧
    (dealDominoes stPreDeal4).boneyard.length +
      ((dealDominoes stPreDeal4).players.map List.length).sum = 66 :=
  deal_sizes_and_tile_conservation 4 stPreDeal4 (by decide) (by decide) rfl
    (by decide)

/-! ## C6 -/

theorem scanStarter_spec (r : Int) : ∀ (hands : List (List Domino)) (i : Nat),
    scanStarter r hands = some i →
    i < hands.length ∧ (hands.getD i []).any (isSetDomino r) = true ∧
    ∀ j, j < i → (hands.getD j []).any (isSetDomino r) = false := by
  intro hands
  induction hands with
  | nil =>
    intro i h
    simp [scanStarter] at h
  | cons hd tl ih =>
    intro i h
    unfold scanStarter at h
    by_cases hh : hd.any (isSetDomino r)
    · rw [if_pos hh] at h
      injection h with h
      subst h
      exact ⟨by simp, by simpa using hh,
        fun j hj => absurd hj (Nat.not_lt_zero j)⟩
    · rw [if_neg hh] at h
      cases hsc : scanStarter r tl with
      | none =>
        rw [hsc] at h
        simp at h
      | some iTl =>
        rw [hsc] at h
        simp only [Option.map_some'] at h
        injection h with h
        subst h
        obtain ⟨p1, p2, p3⟩ := ih iTl hsc
        refine ⟨by simp; omega, by simpa using p2, ?_⟩
        intro j hj
        cases j with
        | zero =>
          simpa using hh
        | succ j =>
          rw [List.getD_cons_succ]
          exact p3 j (by omega)

theorem scanStarter_isSome (r : Int) : ∀ (hands : List (List Domino)),
    (∃ hand ∈ hands, hand.any (isSetDomino r) = true) →
    ∃ i, scanStarter r hands = some i := by
  intro hands
  induction hands with
  | nil =>
    rintro ⟨hand, hm, _⟩
    simp at hm
  | cons hd tl ih =>
    rintro ⟨hand, hm, ha⟩
    unfold scanStarter
    by_cases hh : hd.any (isSetDomino r)
    · exact ⟨0, by rw [if_pos hh]⟩
    · rcases List.mem_cons.mp hm with rfl | hm'
      · exact absurd ha hh
      · obtain ⟨i, hi⟩ := ih ⟨hand, hm', ha⟩
        refine ⟨i + 1, ?_⟩
        rw [if_neg hh, hi]
        rfl

/-- C6: when after dealing some hand holds a tile with both ends equal to the
round target or holding wild/wild, `findStartingPlayer` makes the first such
player (in player order) the current player and round winner via the scan
phase (src 110-121), without drawing from (or otherwise touching) the
boneyard. -/
theorem first_qualifying_hand_starts_without_drawing
    (shuffles : List (List Domino)) (fuel : Nat) (st : GState)
    (h : ∃ hand ∈ st.players, ∃ d ∈ hand,
      isSetDomino st.currentRound d = true) :
    ∃ i, scanStarter st.currentRound st.players = some i ∧
      findStartingPlayer shuffles fuel st =
        { st with currentPlayer := i, roundWinner := some i } ∧
      (findStartingPlayer shuffles fuel st).boneyard = st.boneyard ∧
      i < st.players.length ∧
      (∃ d ∈ st.players.getD i [], isSetDomino st.currentRound d = true) ∧
      (∀ j, j < i → ∀ d ∈ st.players.getD j [],
        isSetDomino st.currentRound d = false) := by
  obtain ⟨hand, hm, d, hd, hq⟩ := h
  obtain ⟨i, hi⟩ := scanStarter_isSome st.currentRound st.players
    ⟨hand, hm, List.any_eq_true.mpr ⟨d, hd, hq⟩⟩
  obtain ⟨p1, p2, p3⟩ := scanStarter_spec st.currentRound st.players i hi
  have hfsp : findStartingPlayer shuffles fuel st =
      { st with currentPlayer := i, roundWinner := some i } := by
    unfold findStartingPlayer
    rw [hi]
  refine ⟨i, hi, hfsp, by rw [hfsp], p1, ?_, ?_⟩
  · obtain ⟨d1, hd1, hq1⟩ := List.any_eq_true.mp p2
    exact ⟨d1, hd1, hq1⟩
  · intro j hj d1 hd1
    have hfalse := p3 j hj
    rw [List.any_eq_false] at hfalse
    have := hfalse d1 hd1
    simpa using this

/-- Witness for C6 at a concrete input: in `stOnlyP1HasNine` only player 1
holds `[9|9]`, so player 1 starts and the boneyard is untouched. -/
theorem first_qualifying_hand_starts_without_drawing_witness :
    ∃ i, scanStarter stOnlyP1HasNine.currentRound stOnlyP1HasNine.players =
        some i ∧
      findStartingPlayer [] 9 stOnlyP1HasNine =
        { stOnlyP1HasNine with currentPlayer := i, roundWinner := some i } ∧
      (findStartingPlayer [] 9 stOnlyP1HasNine).boneyard =
        stOnlyP1HasNine.boneyard ∧
      i < stOnlyP1HasNine.players.length ∧
      (∃ d ∈ stOnlyP1HasNine.players.getD i [],
        isSetDomino stOnlyP1HasNine.currentRound d = true) ∧
      (∀ j, j < i → ∀ d ∈ stOnlyP1HasNine.players.getD j [],
        isSetDomino stOnlyP1HasNine.currentRound d = false) :=
  first_qualifying_hand_starts_without_drawing [] 9 stOnlyP1HasNine
    ⟨[mkDomino (Val.num 9) (Val.num 9), mkDomino (Val.num 0) (Val.num 3)],
      by decide, mkDomino (Val.num 9) (Val.num 9), by decide, by decide⟩

/-! ## C7 -/

theorem scanStarter_none (r : Int) : ∀ (hands : List (List Domino)),
    (∀ hand ∈ hands, ∀ d ∈ hand, isSetDomino r d = false) →
    scanStarter r hands = none := by
  intro hands
  induction hands with
  | nil =>
    intro h
    rfl
  | cons hd tl ih =>
    intro h
    unfold scanStarter
    have hh : hd.any (isSetDomino r) = false := by
      rw [List.any_eq_false]
      intro d hd1
      simp [h hd (List.mem_cons_self hd tl) d hd1]
    rw [hh]
    simp only [Bool.false_eq_true, if_false]
    rw [ih (fun hand hm => h hand (List.mem_cons_of_mem hd hm))]
    rfl

theorem drawLoop_no_qualifier (r : Int) (n start : Nat) :
    ∀ (bone : List Domino) (dr : Nat) (players : List (List Domino)),
    (∀ d ∈ bone, isSetDomino r d = false) →
    (drawLoop r n start dr players bone).1 = none ∧
    (drawLoop r n start dr players bone).2.2 = [] := by
  intro bone
  induction bone with
  | nil =>
    intro dr players h
    exact ⟨rfl, rfl⟩
  | cons d rest ih =>
    intro dr players h
    unfold drawLoop
    simp only []
    rw [show isSetDomino r (positionDomino n ((start + dr) % n)
      ((players.getD ((start + dr) % n) []).length) d) = isSetDomino r d
      from rfl]
    rw [h d (List.mem_cons_self d rest)]
    simp only [Bool.false_eq_true, if_false]
    exact ih (dr + 1) _ (fun e he => h e (List.mem_cons_of_mem d he))

/-- C7: when neither the dealt hands nor the boneyard hold a qualifying tile
(round-target double or wild/wild), the starting-player search drains the
boneyard without finding a starter, decrements the round target, and (a) if
the target is still non-negative, deals a brand-new round from the next
fresh shuffle and searches it; (b) if the target thereby drops below 0, the
session terminates immediately with no play (the board is untouched and the
terminal broadcast fires). -/
theorem inconclusive_round_redeals_or_terminates
    (shuffles : List (List Domino)) (f : Nat) (st : GState)
    (h1 : ∀ hand ∈ st.players, ∀ d ∈ hand,
      isSetDomino st.currentRound d = false)
    (h2 : ∀ d ∈ st.boneyard, isSetDomino st.currentRound d = false) :
    (drawLoop st.currentRound st.players.length (st.roundWinner.getD 0) 0
      st.players st.boneyard).1 = none ∧
    (drawLoop st.currentRound st.players.length (st.roundWinner.getD 0) 0
      st.players st.boneyard).2.2 = [] ∧
    (st.currentRound - 1 ≥ 0 →
      findStartingPlayer shuffles (f + 1) st =
        findStartingPlayer shuffles.tail f
          (dealDominoes (roundReset (postDrawDecrement st)
            (shuffles.headD fullDeck))) ∧
      (roundReset (postDrawDecrement st)
        (shuffles.headD fullDeck)).currentRound = st.currentRound - 1 ∧
      (roundReset (postDrawDecrement st)
        (shuffles.headD fullDeck)).boneyard = shuffles.headD fullDeck ∧
      (roundReset (postDrawDecrement st) (shuffles.headD fullDeck)).board =
        []) ∧
    (st.currentRound - 1 < 0 →
      findStartingPlayer shuffles (f + 1) st =
        endGame (postDrawDecrement st) ∧
      (endGame (postDrawDecrement st)).gameOver = true ∧
      (endGame (postDrawDecrement st)).board = st.board ∧
      (endGame (postDrawDecrement st)).currentRound =
        st.currentRound - 1) := by
  have hscan := scanStarter_none st.currentRound st.players h1
  obtain ⟨hdl1, hdl2⟩ := drawLoop_no_qualifier st.currentRound
    st.players.length (st.roundWinner.getD 0) st.boneyard 0 st.players h2
  refine ⟨hdl1, hdl2, ?_, ?_⟩
  · intro hge
    constructor
    · conv_lhs => unfold findStartingPlayer
      rw [hscan]
      simp only []
      rw [hdl1]
      simp only []
      rw [if_pos hge]
      conv_lhs => unfold initializeRound
      unfold postDrawDecrement
      simp only []
    · exact ⟨rfl, rfl, rfl⟩
  · intro hlt
    constructor
    · conv_lhs => unfold findStartingPlayer
      rw [hscan]
      simp only []
      rw [hdl1]
      simp only []
      rw [if_neg (by omega)]
      unfold postDrawDecrement
      rfl
    · exact ⟨rfl, rfl, rfl⟩

/-- Witness for C7 at a concrete input: in `stNoQualifier` (round target 0,
no qualifying tile anywhere) the search terminates the session with no
play. -/
theorem inconclusive_round_redeals_or_terminates_witness :
    findStartingPlayer [] 4 stNoQualifier =
      endGame (postDrawDecrement stNoQualifier) ∧
    (endGame (postDrawDecrement stNoQualifier)).gameOver = true ∧
    (endGame (postDrawDecrement stNoQualifier)).board =
      stNoQualifier.board ∧
    (endGame (postDrawDecrement stNoQualifier)).currentRound =
      stNoQualifier.currentRound - 1 :=
  (inconclusive_round_redeals_or_terminates [] 3 stNoQualifier (by decide)
    (by decide)).2.2.2 (by decide)

/-! ## C8 -/

/-- C8: when a non-double half-wild tile is placed as a non-opening move that
consumes an open end, one of the two newly emitted slots carries the
unresolved wild marker as its value (in particular whenever the wild end is
the unmatched side — the statement covers every mating orientation of a
half-wild tile), and a slot whose value is the wild marker is matchable by
`canMatchOpen` exactly when the candidate tile has a wild end: never by value
equality of a tile without one. -/
theorem halfwild_placement_emits_wild_slot (st : GState) (d : Domino)
    (p : Placement) (e : OpenEnd)
    (hg : st.gameStarted = true)
    (hfind : st.openEnds.find? (nearPlacement p) = some e)
    (hhw : (d.a = Val.wild ∧ d.b ≠ Val.wild) ∨
      (d.a ≠ Val.wild ∧ d.b = Val.wild))
    (hns : d.isSpinner = false) :
    (∃ s1 s2 : OpenEnd,
      (updateOpenEnds d p st).openEnds =
        st.openEnds.filter (fun x => x ≠ e) ++ [s1, s2] ∧
      (s1.value = Val.wild ∨ s2.value = Val.wild)) ∧
    (∀ d1 : Domino, d1.a ≠ Val.wild → d1.b ≠ Val.wild →
      canMatchOpen d1 Val.wild = false) ∧
    (∀ d1 : Domino, d1.a = Val.wild ∨ d1.b = Val.wild →
      canMatchOpen d1 Val.wild = true) := by
  refine ⟨?_, ?_, ?_⟩
  · unfold updateOpenEnds newOpenEnds
    rw [hg]
    simp only [Bool.true_eq_false, if_false]
    rw [hfind]
    simp only [hns, Bool.false_eq_true, if_false]
    by_cases hcond : d.a = e.value ∨ d.a = Val.wild
    · rw [if_pos hcond, if_pos hcond]
      by_cases hrot : p.rotation = 0 ∨ p.rotation = 180
      · rw [if_pos hrot]
        refine ⟨_, _, rfl, ?_⟩
        rcases hhw with ⟨ha, _⟩ | ⟨_, hb⟩
        · exact Or.inr ha
        · exact Or.inl hb
      · rw [if_neg hrot]
        refine ⟨_, _, rfl, ?_⟩
        rcases hhw with ⟨ha, _⟩ | ⟨_, hb⟩
        · exact Or.inr ha
        · exact Or.inl hb
    · rw [if_neg hcond, if_neg hcond]
      have hb : d.b = Val.wild := by
        rcases hhw with ⟨ha, _⟩ | ⟨_, hb⟩
        · exact absurd (Or.inr ha) hcond
        · exact hb
      by_cases hrot : p.rotation = 0 ∨ p.rotation = 180
      · rw [if_pos hrot]
        exact ⟨_, _, rfl, Or.inr hb⟩
      · rw [if_neg hrot]
        exact ⟨_, _, rfl, Or.inr hb⟩
  · intro d1 h1 h2
    simp [canMatchOpen, h1, h2]
  · intro d1 h
    rcases h with h | h <;> simp [canMatchOpen, h]

/-- Witness for C8 at a concrete input: placing `[S|3]` (numeric end mating
the `3` slot of `stHalfWild`) emits a slot whose value is the wild marker. -/
theorem halfwild_placement_emits_wild_slot_witness :
    (∃ s1 s2 : OpenEnd,
      (updateOpenEnds placedHalfWild pHalfWild stHalfWild).openEnds =
        stHalfWild.openEnds.filter (fun x => x ≠ topEnd3) ++ [s1, s2] ∧
      (s1.value = Val.wild ∨ s2.value = Val.wild)) ∧
    (∀ d1 : Domino, d1.a ≠ Val.wild → d1.b ≠ Val.wild →
      canMatchOpen d1 Val.wild = false) ∧
    (∀ d1 : Domino, d1.a = Val.wild ∨ d1.b = Val.wild →
      canMatchOpen d1 Val.wild = true) :=
  halfwild_placement_emits_wild_slot stHalfWild placedHalfWild pHalfWild
    topEnd3 rfl (by decide) (Or.inl ⟨rfl, by decide⟩) rfl

/-! ## C9 -/

theorem DoubleInv_mono (st st2 : GState)
    (hdip : st2.doubleInPlay = st.doubleInPlay)
    (hc : st2.doubleCounter = st.doubleCounter)
    (hb : ∀ z, z ∈ st.board → z ∈ st2.board) :
    DoubleInv st → DoubleInv st2 := by
  intro h
  unfold DoubleInv at h ⊢
  rw [hdip, hc]
  cases hdd : st.doubleInPlay with
  | none =>
    rw [hdd] at h
    exact h
  | some d =>
    rw [hdd] at h
    exact ⟨hb d h.1, h.2.1, h.2.2⟩

theorem inv_findStartingPlayer_body (shuffles : List (List Domino))
    (fuel : Nat) (st : GState)
    (hir : ∀ (shuffles2 : List (List Domino)) (st2 : GState), DoubleInv st2 →
      DoubleInv (initializeRound shuffles2 fuel st2))
    (h : DoubleInv st) : DoubleInv (findStartingPlayer shuffles fuel st) := by
  unfold findStartingPlayer
  cases hscan : scanStarter st.currentRound st.players with
  | some i =>
    exact DoubleInv_mono st _ rfl rfl (fun z hz => hz) h
  | none =>
    simp only []
    cases hdl : (drawLoop st.currentRound st.players.length
      (st.roundWinner.getD 0) 0 st.players st.boneyard).1 with
    | some q =>
      simp only []
      exact DoubleInv_mono st _ rfl rfl (fun z hz => hz) h
    | none =>
      simp only []
      split
      · exact hir shuffles _ (DoubleInv_mono st _ rfl rfl (fun z hz => hz) h)
      · exact DoubleInv_mono st _ rfl rfl (fun z hz => hz) h

theorem inv_round_recursion : ∀ (fuel : Nat),
    (∀ (shuffles : List (List Domino)) (st : GState), DoubleInv st →
      DoubleInv (initializeRound shuffles fuel st)) ∧
    (∀ (shuffles : List (List Domino)) (st : GState), DoubleInv st →
      DoubleInv (findStartingPlayer shuffles fuel st)) := by
  intro fuel
  induction fuel with
  | zero =>
    have hir : ∀ (shuffles : List (List Domino)) (st : GState),
        DoubleInv st → DoubleInv (initializeRound shuffles 0 st) := by
      intro shuffles st h
      unfold initializeRound
      exact h
    exact ⟨hir,
      fun shuffles st h => inv_findStartingPlayer_body shuffles 0 st hir h⟩
  | succ f ih =>
    have hir : ∀ (shuffles : List (List Domino)) (st : GState),
        DoubleInv st → DoubleInv (initializeRound shuffles (f + 1) st) := by
      intro shuffles st h
      unfold initializeRound
      exact ih.2 shuffles.tail _ rfl
    exact ⟨hir,
      fun shuffles st h =>
        inv_findStartingPlayer_body shuffles (f + 1) st hir h⟩

theorem inv_checkGameEnd (shuffles : List (List Domino)) (fuel : Nat)
    (st : GState) (h : DoubleInv st) :
    DoubleInv (checkGameEnd shuffles fuel st) := by
  unfold checkGameEnd
  by_cases htrig : (st.players.getD st.currentPlayer []).length = 0
  · rw [if_pos htrig]
    simp only []
    split
    · exact (inv_round_recursion fuel).1 shuffles _
        (DoubleInv_mono st _ rfl rfl (fun z hz => hz) h)
    · exact DoubleInv_mono st _ rfl rfl (fun z hz => hz) h
  · rw [if_neg htrig]
    exact h

theorem inv_handleDraw (pid : Nat) (st : GState) (h : DoubleInv st) :
    DoubleInv (handleDraw pid st) := by
  unfold handleDraw
  by_cases hcond : pid ≠ st.currentPlayer ∨ st.boneyard = []
  · rw [if_pos hcond]
    exact DoubleInv_mono st _ rfl rfl (fun z hz => hz) h
  · rw [if_neg hcond]
    cases hb : st.boneyard with
    | nil => exact h
    | cons d rest =>
      simp only []
      exact DoubleInv_mono st _ rfl rfl (fun z hz => hz) h

theorem placeAndAdvance_double_fields (pid idx : Nat) (d1 : Domino)
    (p : Placement) (st1 : GState) (hdc : doubleCond d1 = true) :
    (placeAndAdvance pid idx d1 p st1).doubleInPlay =
      some { finalizeTile d1 p with isSpinner := true } ∧
    (placeAndAdvance pid idx d1 p st1).doubleCounter = 1 ∧
    (placeAndAdvance pid idx d1 p st1).board =
      st1.board ++ [{ finalizeTile d1 p with isSpinner := true }] := by
  unfold placeAndAdvance
  simp only [hdc, if_true, updateOpenEnds]
  split
  · next hcontra => exact absurd hcontra (by omega)
  · split <;> simp

theorem placeAndAdvance_nondouble_nochain (pid idx : Nat) (d1 : Domino)
    (p : Placement) (st1 : GState) (hdc : doubleCond d1 = false)
    (hdip : st1.doubleInPlay = none) :
    (placeAndAdvance pid idx d1 p st1).doubleInPlay = none ∧
    (placeAndAdvance pid idx d1 p st1).doubleCounter =
      st1.doubleCounter := by
  unfold placeAndAdvance
  simp only [hdc, Bool.false_eq_true, if_false, updateOpenEnds, hdip]
  split <;> simp

theorem placeAndAdvance_nondouble_chain (pid idx : Nat) (d1 : Domino)
    (p : Placement) (st1 : GState) (D : Domino)
    (hdc : doubleCond d1 = false) (hdip : st1.doubleInPlay = some D)
    (hlt : st1.doubleCounter + 1 < 3) :
    (placeAndAdvance pid idx d1 p st1).doubleInPlay = some D ∧
    (placeAndAdvance pid idx d1 p st1).doubleCounter =
      st1.doubleCounter + 1 ∧
    (placeAndAdvance pid idx d1 p st1).board =
      st1.board ++ [finalizeTile d1 p] := by
  unfold placeAndAdvance
  simp only [hdc, Bool.false_eq_true, if_false, updateOpenEnds, hdip]
  split
  · next hcontra => exact absurd hcontra (by omega)
  · split <;> simp

theorem placeAndAdvance_nondouble_chain_clear (pid idx : Nat) (d1 : Domino)
    (p : Placement) (st1 : GState) (D : Domino)
    (hdc : doubleCond d1 = false) (hdip : st1.doubleInPlay = some D)
    (hge : st1.doubleCounter + 1 ≥ 3) :
    (placeAndAdvance pid idx d1 p st1).doubleInPlay = none ∧
    (placeAndAdvance pid idx d1 p st1).doubleCounter = 0 := by
  unfold placeAndAdvance
  simp only [hdc, Bool.false_eq_true, if_false, updateOpenEnds, hdip]
  split
  · split <;> simp
  · next hcontra => exact absurd hge hcontra

theorem inv_placeAndAdvance (pid idx : Nat) (d1 : Domino) (p : Placement)
    (st1 : GState) (h : DoubleInv st1) :
    DoubleInv (placeAndAdvance pid idx d1 p st1) := by
  by_cases hdc : doubleCond d1 = true
  · have hab : d1.a = d1.b := (doubleCond_true_iff d1).mp hdc
    obtain ⟨e1, e2, e3⟩ := placeAndAdvance_double_fields pid idx d1 p st1 hdc
    unfold DoubleInv
    rw [e1, e2, e3]
    exact ⟨List.mem_append_right _ (List.mem_singleton_self _), hab,
      by omega⟩
  · have hdcf : doubleCond d1 = false := by
      cases hv : doubleCond d1
      · rfl
      · exact absurd hv hdc
    cases hdip : st1.doubleInPlay with
    | none =>
      obtain ⟨e1, e2⟩ := placeAndAdvance_nondouble_nochain pid idx d1 p st1
        hdcf hdip
      unfold DoubleInv at h ⊢
      rw [hdip] at h
      rw [e1, e2]
      exact h
    | some D =>
      unfold DoubleInv at h
      rw [hdip] at h
      obtain ⟨hmem, heq, hlt⟩ := h
      by_cases hc3 : st1.doubleCounter + 1 ≥ 3
      · obtain ⟨e1, e2⟩ := placeAndAdvance_nondouble_chain_clear pid idx d1
          p st1 D hdcf hdip hc3
        unfold DoubleInv
        rw [e1, e2]
      · obtain ⟨e1, e2, e3⟩ := placeAndAdvance_nondouble_chain pid idx d1 p
          st1 D hdcf hdip (by omega)
        unfold DoubleInv
        rw [e1, e2, e3]
        exact ⟨List.mem_append_left _ hmem, heq, by omega⟩

theorem inv_handlePlay (shuffles : List (List Domino)) (fuel pid idx : Nat)
    (x y rot : Int) (st : GState) (h : DoubleInv st) :
    DoubleInv (handlePlay shuffles fuel pid idx x y rot st) := by
  by_cases h1 : pid = st.currentPlayer
  · cases h2 : (st.players.getD pid []).get? idx with
    | none =>
      rw [handlePlay_bad_index shuffles fuel pid idx x y rot st h1 h2]
      exact h
    | some d0 =>
      cases h3 : canPlaceDomino { d0 with rotation := rot } x y rot st with
      | none =>
        rw [handlePlay_no_placement shuffles fuel pid idx x y rot st d0
          h1 h2 h3]
        exact DoubleInv_mono st _ rfl rfl (fun z hz => hz) h
      | some p =>
        rw [handlePlay_success shuffles fuel pid idx x y rot st d0 p
          h1 h2 h3]
        unfold applyPlacement
        apply inv_checkGameEnd
        apply inv_placeAndAdvance
        exact DoubleInv_mono st _ rfl rfl (fun z hz => hz) h
  · rw [handlePlay_out_of_turn shuffles fuel pid idx x y rot st h1]
    exact h

/-- C9: the chain-state invariant — `doubleInPlay` is null or a double
currently on the board, with `doubleCounter` zeroed when null and in
`[0, 3)` when non-null — is preserved by every processed action within a
round: any `Play`, any `Draw`, and the round (re)initialization that starts
a round. -/
theorem chain_invariant_preserved (shuffles : List (List Domino))
    (fuel pid idx : Nat) (x y rot : Int) (st : GState) (h : DoubleInv st) :
    DoubleInv (handlePlay shuffles fuel pid idx x y rot st) ∧
    DoubleInv (handleDraw pid st) ∧
    DoubleInv (initializeRound shuffles fuel st) :=
  ⟨inv_handlePlay shuffles fuel pid idx x y rot st h,
   inv_handleDraw pid st h,
   (inv_round_recursion fuel).1 shuffles st h⟩

/-- Witness for C9 at a concrete input: `stWildChain` satisfies the
invariant, and so do the results of a play, a draw and a round
reinitialization from it. -/
theorem chain_invariant_preserved_witness :
    DoubleInv (handlePlay [] 2 0 0 425 300 0 stWildChain) ∧
    DoubleInv (handleDraw 0 stWildChain) ∧
    DoubleInv (initializeRound [] 2 stWildChain) :=
  chain_invariant_preserved [] 2 0 0 425 300 0 stWildChain
    ⟨by decide, rfl, by decide⟩
